import Mathlib

/-!
# Secret Santa registry and assignment engine: a shallow embedding

This file embeds the core of `src/main.py` (the participant registry, the
rejection-sampling assignment engine, and the JSON snapshot persistence)
into Lean and proves the specification's claims about it.

Conventions of the embedding:
* Python's insertion-ordered `dict` of participants is an association list
  `List (String × Participant)`; assigning to a present key replaces the
  stored value in place, assigning to an absent key appends.
* `random.shuffle` is modelled by an oracle `draw : Nat → List String`
  giving the candidate receiver list produced at each iteration of the
  rejection loop; the faithfulness hypothesis is that every draw is a
  permutation of the giver list, exactly what `random.shuffle` guarantees.
* The unbounded `while True` rejection loop is given explicit fuel; running
  out of fuel is a distinguished outcome `none` (the Python code would
  still be looping).
* HTTP error responses are an inductive `Err`, one constructor per
  distinct failure in the code (the error taxonomy of the spec).
* Python truthiness tests on `Optional[str]` values (`if not x`) are
  `pyFalsyOpt`: `None` and the empty string are falsy.
-/

namespace SecretSanta

/-- A participant record, mirroring the pydantic `Participant` model:
`id`, `name`, optional `giftPreference`, optional `assignedTo`. -/
structure Participant where
  id : String
  name : String
  giftPreference : Option String := none
  assignedTo : Option String := none
  deriving Repr, DecidableEq

/-- The process-wide mutable state of `main.py`: the insertion-ordered
`participants` dict and the `shuffled` lifecycle flag. -/
structure St where
  participants : List (String × Participant)
  shuffled : Bool
  deriving Repr, DecidableEq

/-- The error taxonomy: each constructor is one distinct failure response
raised in `main.py`. -/
inductive Err where
  /-- pydantic rejects the request body (`min_length=1` on `name`). -/
  | invalidInput
  /-- any mutating request after the shuffle has run (HTTP 400). -/
  | alreadyClosed
  /-- shuffle with fewer than two participants (HTTP 400). -/
  | insufficientParticipants
  /-- unknown participant identity (HTTP 404). -/
  | notFound
  /-- assignment requested before the shuffle has run (HTTP 400). -/
  | notReady
  /-- a recorded receiver id no longer resolves (HTTP 500). -/
  | assignmentIncomplete
  deriving Repr, DecidableEq

/-- Python truthiness of an `Optional[str]`: `None` and `""` are falsy. -/
def pyFalsyOpt : Option String → Bool
  | none => true
  | some s => s.isEmpty

/-- Python's `str.strip()`: drop leading and trailing whitespace.  (Defined
over the character list so that it evaluates by kernel reduction; Lean's
built-in `String.trim` is extensionally the same operation but is stuck on
well-founded recursion.) -/
def pyStrip (s : String) : String :=
  String.mk (((s.data.dropWhile Char.isWhitespace).reverse.dropWhile
    Char.isWhitespace).reverse)

/-- Assignment `d[k] = v` on an insertion-ordered dict: replace in place when the key
is present, append otherwise. -/
def dictInsert (d : List (String × Participant)) (k : String) (v : Participant) :
    List (String × Participant) :=
  match d with
  | [] => [(k, v)]
  | (k', v') :: rest =>
    if k' = k then (k, v) :: rest else (k', v') :: dictInsert rest k v

/-- The keys of the participants dict, in insertion order. -/
def keysOf (d : List (String × Participant)) : List String :=
  d.map Prod.fst

/-- Candidate pairing `ids.zip receivers` accepted by the rejection loop: no position is a
fixed point (`all(giver != receiver ...)` in the source). -/
def acceptsDraw (ids receivers : List String) : Bool :=
  (ids.zip receivers).all fun gr => gr.1 ≠ gr.2

/-- Function `build_valid_assignment(ids)` from `main.py`: repeatedly draw a shuffled
copy of `ids` (the oracle `draw`, indexed by the attempt number `k`) until
the position-wise pairing has no fixed point, then return the dict pairing
givers with receivers.  `fuel` bounds the unbounded `while True` loop;
`none` means the loop is still running. -/
def build_valid_assignment (draw : Nat → List String) (ids : List String) :
    Nat → Nat → Option (List (String × String))
  | _, 0 => none
  | k, fuel + 1 =>
    let receivers := draw k
    if acceptsDraw ids receivers then some (ids.zip receivers)
    else build_valid_assignment draw ids (k + 1) fuel

/-- The write-back loop `for giver_id, receiver_id in assignment_map.items(): participants[giver_id].assignedTo = receiver_id`:
each participant whose key occurs in the assignment map gets its
`assignedTo` field set to the mapped receiver. -/
def applyAssignment (m : List (String × String)) (d : List (String × Participant)) :
    List (String × Participant) :=
  d.map fun kp =>
    match m.lookup kp.1 with
    | some r => (kp.1, { kp.2 with assignedTo := some r })
    | none => kp

/-- The `Participant(...)` record built by `add_participant`: stripped
name, a preference that is `None` when the submission is falsy (absent or
empty) and the stripped submission otherwise, and no assignment yet. -/
def newParticipant (name : String) (giftPreference : Option String)
    (newId : String) : Participant :=
  { id := newId
    name := pyStrip name
    giftPreference :=
      match giftPreference with
      | some g => if g.isEmpty then none else some (pyStrip g)
      | none => none
    assignedTo := none }

/-- Endpoint `POST /participants` (`add_participant`), after transport decoding.
pydantic first validates `min_length=1` on the raw name (an empty name is
rejected as `InvalidInput` before the handler body runs); the handler then
rejects when `shuffled`, else stores a participant under the fresh uuid
`newId` with a trimmed name and a truthiness-normalized preference, and
returns the new id. -/
def add_participant (name : String) (giftPreference : Option String)
    (newId : String) (s : St) : Except Err String × St :=
  if name.length < 1 then (.error .invalidInput, s)
  else if s.shuffled then (.error .alreadyClosed, s)
  else
    (.ok newId,
      { s with participants :=
          dictInsert s.participants newId (newParticipant name giftPreference newId) })

/-- Endpoint `DELETE /participants/{id}` (`remove_participant`), after the admin
check: rejects when `shuffled`, then when the id is unknown, else pops the
entry. -/
def remove_participant (pid : String) (s : St) : Except Err Unit × St :=
  if s.shuffled then (.error .alreadyClosed, s)
  else if (s.participants.lookup pid).isNone then (.error .notFound, s)
  else (.ok (), { s with participants := s.participants.filter fun kp => kp.1 ≠ pid })

/-- Name of the participant stored under `k` (total stand-in for Python's
`participants[k].name`, which cannot fail where the code uses it). -/
def nameOf (d : List (String × Participant)) (k : String) : String :=
  ((d.lookup k).map Participant.name).getD ""

/-- Endpoint `POST /shuffle` (`shuffle`), after the admin check: rejects when
already `shuffled`, then when fewer than two participants are registered;
otherwise runs `build_valid_assignment` on the key list, writes every
`assignedTo`, flips the flag, and returns the admin-visible list of
(giver name, receiver name) pairs.  A `none` from the engine means the
rejection loop ran out of `fuel` (the Python loop would still be running),
so no response and no state change exist yet. -/
def shuffle (draw : Nat → List String) (fuel : Nat) (s : St) :
    Option (Except Err (List (String × String)) × St) :=
  if s.shuffled then some (.error .alreadyClosed, s)
  else if s.participants.length < 2 then some (.error .insufficientParticipants, s)
  else
    let ids := keysOf s.participants
    match build_valid_assignment draw ids 0 fuel with
    | none => none
    | some m =>
      let d := applyAssignment m s.participants
      let pairs := m.map fun gr => (nameOf d gr.1, nameOf d gr.2)
      some (.ok pairs, { participants := d, shuffled := true })

/-- The success payload of `GET /assignment/{id}`: only the receiver's
display name and gift preference, nothing else. -/
structure AssignmentView where
  name : String
  giftPreference : Option String
  deriving Repr, DecidableEq

/-- Endpoint `GET /assignment/{id}` (`get_assignment`): 404 when the id is unknown,
400 (not ready) when `assignedTo` is falsy, 500 when the recorded receiver
no longer resolves, else the receiver's name and preference.  Read-only:
the state is untouched. -/
def get_assignment (pid : String) (s : St) : Except Err AssignmentView :=
  match s.participants.lookup pid with
  | none => .error .notFound
  | some p =>
    if pyFalsyOpt p.assignedTo then .error .notReady
    else
      match p.assignedTo with
      | none => .error .notReady
      | some rid =>
        match s.participants.lookup rid with
        | none => .error .assignmentIncomplete
        | some receiver => .ok ⟨receiver.name, receiver.giftPreference⟩

/-- One record of the persisted JSON snapshot's `participants` list.  Every
field is optional because `load_data` must cope with hand-edited snapshots:
records missing `id` or `name` are skipped. -/
structure RawItem where
  id : Option String := none
  name : Option String := none
  giftPreference : Option String := none
  assignedTo : Option String := none
  deriving Repr, DecidableEq

/-- The persisted snapshot: the `participants` list and the `shuffled`
flag, the latter optional (`raw.get("shuffled", False)`). -/
structure Snapshot where
  participants : List RawItem
  shuffled : Option Bool := none
  deriving Repr, DecidableEq

/-- Function `save_data()`: dump every participant record in dict order together
with the current flag, replacing any previous snapshot. -/
def save_data (s : St) : Snapshot :=
  { participants := s.participants.map fun kp =>
      { id := some kp.2.id
        name := some kp.2.name
        giftPreference := kp.2.giftPreference
        assignedTo := kp.2.assignedTo }
    shuffled := some s.shuffled }

/-- The records of a snapshot that `load_data` keeps: those carrying both
an `id` and a `name`, rebuilt as `Participant`s keyed by their `id`. -/
def loadItems (items : List RawItem) : List (String × Participant) :=
  items.filterMap fun it =>
    match it.id, it.name with
    | some i, some n =>
      some (i, { id := i, name := n, giftPreference := it.giftPreference
                 assignedTo := it.assignedTo })
    | _, _ => none

/-- Function `load_data()`: rebuild the participants dict from the snapshot's list
(a dict comprehension: later duplicate ids overwrite earlier ones in
place), and recompute the lifecycle flag as the stored flag (defaulting to
false) OR the presence of any loaded `assignedTo`. -/
def load_data (snap : Snapshot) : St :=
  let d := (loadItems snap.participants).foldl (fun acc kp => dictInsert acc kp.1 kp.2) []
  { participants := d
    shuffled := snap.shuffled.getD false || d.any fun kp => kp.2.assignedTo.isSome }

/-- The spec's participant invariant (§3): every `assignedTo`, once set,
references a key of the registry and differs from its owner's identity. -/
def assignedInv (d : List (String × Participant)) : Prop :=
  ∀ kp ∈ d, ∀ rid, kp.2.assignedTo = some rid → rid ∈ keysOf d ∧ rid ≠ kp.1

/-- The representation invariant of every reachable state: the dict has no
duplicate keys, each record's `id` equals its key (the code always stores
`participants[participant_id] = Participant(id=participant_id, ...)`),
assignments exist only once the lifecycle flag is set (assignments are
written only by `shuffle`, and `load_data` forces the flag on when any
assignment is present), and `assignedInv` holds. -/
def WF (s : St) : Prop :=
  (keysOf s.participants).Nodup ∧
    (∀ kp ∈ s.participants, kp.2.id = kp.1) ∧
    (s.shuffled = false → ∀ kp ∈ s.participants, kp.2.assignedTo = none) ∧
    assignedInv s.participants

/-! ## Helper lemmas about association-list lookup -/

theorem lookup_isSome_iff_mem_keys {β : Type} (d : List (String × β)) (k : String) :
    (d.lookup k).isSome ↔ k ∈ d.map Prod.fst := by
  induction d with
  | nil => simp [List.lookup]
  | cons kv rest ih =>
    rcases kv with ⟨k', v'⟩
    by_cases h : k = k'
    · subst h
      simp [List.lookup]
    · have hbeq : (k == k') = false := by
        simpa using h
      simp [List.lookup, hbeq, ih, h]

theorem mem_of_lookup_eq_some {β : Type} {d : List (String × β)} {k : String} {v : β}
    (h : d.lookup k = some v) : (k, v) ∈ d := by
  induction d with
  | nil => simp [List.lookup] at h
  | cons kv rest ih =>
    rcases kv with ⟨k', v'⟩
    by_cases hk : k = k'
    · subst hk
      simp [List.lookup] at h
      simp [h]
    · have hbeq : (k == k') = false := by
        simpa using hk
      simp [List.lookup, hbeq] at h
      exact List.mem_cons_of_mem _ (ih h)

/-! ## The assignment engine -/

/-- Any map returned by the rejection loop is the position-wise pairing of
`ids` with one accepted draw: its keys are exactly `ids`, its values are a
permutation of `ids`, and no pair is a fixed point.  This holds for every
`draw` oracle whose candidates are permutations of `ids`, which is what
`random.shuffle` produces. -/
theorem build_valid_assignment_spec (draw : Nat → List String) (ids : List String)
    (hdraw : ∀ k, (draw k).Perm ids) :
    ∀ k fuel m, build_valid_assignment draw ids k fuel = some m →
      m.map Prod.fst = ids ∧ (m.map Prod.snd).Perm ids ∧ ∀ gr ∈ m, gr.1 ≠ gr.2 := by
  intro k fuel
  induction fuel generalizing k with
  | zero => intro m h; simp [build_valid_assignment] at h
  | succ fuel ih =>
    intro m h
    rw [build_valid_assignment] at h
    by_cases hacc : acceptsDraw ids (draw k) = true
    · rw [if_pos hacc] at h
      have hm : m = ids.zip (draw k) := by
        exact (Option.some_inj.mp h).symm
      subst hm
      have hlen : (draw k).length = ids.length := (hdraw k).length_eq
      refine ⟨List.map_fst_zip _ _ (le_of_eq hlen.symm), ?_, ?_⟩
      · rw [List.map_snd_zip _ _ (le_of_eq hlen)]
        exact hdraw k
      · intro gr hgr
        have := List.all_eq_true.mp hacc gr hgr
        simpa using this
    · rw [if_neg hacc] at h
      exact ih (k + 1) m h

/-- C1: For every list of at least two distinct participant identities
and every run of the engine's rejection loop (over any `random.shuffle`
oracle), the returned assignment maps every input identity exactly once as
a key and exactly once as a value, and maps no identity to itself. -/
theorem C1_build_valid_assignment_derangement (draw : Nat → List String)
    (ids : List String) (m : List (String × String)) (k fuel : Nat)
    (hnodup : ids.Nodup) (hlen : 2 ≤ ids.length)
    (hdraw : ∀ k, (draw k).Perm ids)
    (h : build_valid_assignment draw ids k fuel = some m) :
    (∀ x ∈ ids, (m.map Prod.fst).count x = 1 ∧ (m.map Prod.snd).count x = 1) ∧
      ∀ gr ∈ m, gr.1 ≠ gr.2 := by
  obtain ⟨hfst, hsnd, hfix⟩ := build_valid_assignment_spec draw ids hdraw k fuel m h
  refine ⟨fun x hx => ⟨?_, ?_⟩, hfix⟩
  · rw [hfst]
    exact List.count_eq_one_of_mem hnodup hx
  · rw [hsnd.count_eq]
    exact List.count_eq_one_of_mem hnodup hx

/-- Witness for C1 at a concrete two-identity input. -/
theorem C1_witness :
    (["a", "b"] : List String).Nodup ∧ 2 ≤ (["a", "b"] : List String).length ∧
      ((∀ x ∈ (["a", "b"] : List String),
          ([("a", "b"), ("b", "a")].map Prod.fst).count x = 1 ∧
          ([("a", "b"), ("b", "a")].map Prod.snd).count x = 1) ∧
        ∀ gr ∈ ([("a", "b"), ("b", "a")] : List (String × String)), gr.1 ≠ gr.2) := by
  refine ⟨by decide, by decide, ?_⟩
  have hp : (["b", "a"] : List String).Perm ["a", "b"] := by decide
  exact C1_build_valid_assignment_derangement (fun _ => ["b", "a"]) ["a", "b"]
    [("a", "b"), ("b", "a")] 0 1 (by decide) (by decide)
    (fun _ => hp) (by decide)

/-! ## The shuffle lifecycle -/

/-- A successful shuffle leaves the lifecycle flag set. -/
theorem shuffled_of_shuffle_ok (draw : Nat → List String) (fuel : Nat)
    (s s' : St) (pairs : List (String × String))
    (h : shuffle draw fuel s = some (.ok pairs, s')) : s'.shuffled = true := by
  by_cases h1 : s.shuffled
  · simp [shuffle, h1] at h
  · by_cases h2 : s.participants.length < 2
    · simp [shuffle, h1, h2] at h
    · cases hb : build_valid_assignment draw (keysOf s.participants) 0 fuel with
      | none => simp [shuffle, h1, h2, hb] at h
      | some m =>
        simp [shuffle, h1, h2, hb] at h
        rw [← h.2]

/-- C2: After one successful shuffle, every further shuffle attempt —
with any randomness oracle and any loop budget — fails with the
already-shuffled error and returns the state of the first shuffle
untouched (in particular every participant's `assignedTo` is exactly as
the first shuffle set it). -/
theorem C2_shuffle_idempotent_once (draw : Nat → List String) (fuel : Nat)
    (s s' : St) (pairs : List (String × String))
    (h : shuffle draw fuel s = some (.ok pairs, s')) :
    ∀ draw2 fuel2, shuffle draw2 fuel2 s' = some (.error .alreadyClosed, s') := by
  intro draw2 fuel2
  simp [shuffle, shuffled_of_shuffle_ok draw fuel s s' pairs h]

/-- Witness for C2: a concrete two-participant registry, shuffled once
successfully; the second attempt fails with the already-closed error. -/
theorem C2_witness :
    shuffle (fun _ => ["b", "a"]) 1
        ⟨[("a", ⟨"a", "Alice", none, none⟩), ("b", ⟨"b", "Bob", none, none⟩)], false⟩ =
      some (.ok [("Alice", "Bob"), ("Bob", "Alice")],
        ⟨[("a", ⟨"a", "Alice", none, some "b"⟩), ("b", ⟨"b", "Bob", none, some "a"⟩)], true⟩) ∧
    shuffle (fun _ => ["b", "a"]) 1
        ⟨[("a", ⟨"a", "Alice", none, some "b"⟩), ("b", ⟨"b", "Bob", none, some "a"⟩)], true⟩ =
      some (.error .alreadyClosed,
        ⟨[("a", ⟨"a", "Alice", none, some "b"⟩), ("b", ⟨"b", "Bob", none, some "a"⟩)], true⟩) := by
  refine ⟨rfl, ?_⟩
  exact C2_shuffle_idempotent_once (fun _ => ["b", "a"]) 1
    ⟨[("a", ⟨"a", "Alice", none, none⟩), ("b", ⟨"b", "Bob", none, none⟩)], false⟩
    ⟨[("a", ⟨"a", "Alice", none, some "b"⟩), ("b", ⟨"b", "Bob", none, some "a"⟩)], true⟩
    [("Alice", "Bob"), ("Bob", "Alice")] rfl (fun _ => ["b", "a"]) 1

/-- C4, counterexample: the claim "whenever the registry holds 0 or 1
participants, shuffle fails with `InsufficientParticipants`" is false: on
a registry with zero participants whose lifecycle flag is already set
(such a state is produced by loading a snapshot with `"shuffled": true`
and no participants), shuffle fails with the already-closed error instead,
because the code checks `shuffled` before the participant count. -/
theorem C4_counterexample :
    (St.mk [] true).participants.length = 0 ∧
      shuffle (fun _ => []) 1 (St.mk [] true) =
        some (.error .alreadyClosed, St.mk [] true) ∧
      Err.alreadyClosed ≠ Err.insufficientParticipants ∧
      load_data ⟨[], some true⟩ = St.mk [] true := by
  exact ⟨rfl, rfl, by decide, rfl⟩

/-- C4, amended: Whenever the registry holds exactly 0 or exactly 1
participants *and the lifecycle gate is still open*, a shuffle request
fails with `InsufficientParticipants`, and the rejection-sampling loop is
never invoked: the outcome is the same for every randomness oracle and
every loop budget, including a budget of zero draws.  (When the gate is
already closed the request fails with the already-closed error instead,
again without invoking the loop.) -/
theorem C4_shuffle_insufficient (s : St)
    (h1 : s.shuffled = false)
    (h2 : s.participants.length = 0 ∨ s.participants.length = 1) :
    ∀ draw fuel, shuffle draw fuel s = some (.error .insufficientParticipants, s) := by
  intro draw fuel
  have hlt : s.participants.length < 2 := by omega
  simp [shuffle, h1, hlt]

/-- Witness for the amended C4 at the empty open registry, with a loop
budget of zero draws. -/
theorem C4_witness :
    shuffle (fun _ => []) 0 (St.mk [] false) =
      some (.error .insufficientParticipants, St.mk [] false) :=
  C4_shuffle_insufficient (St.mk [] false) rfl (Or.inl rfl) (fun _ => []) 0

/-- C6, counterexample: the claim's second half — "a remove request
for an identity not present in the registry always fails with `NotFound`"
— is false once the shuffle has run: removing the unknown identity `"zzz"`
from a shuffled two-participant registry fails with the already-closed
error, because the code checks `shuffled` before membership. -/
theorem C6_counterexample :
    ((St.mk [("a", ⟨"a", "Alice", none, some "b"⟩),
             ("b", ⟨"b", "Bob", none, some "a"⟩)] true).participants.lookup "zzz").isNone
        = true ∧
      remove_participant "zzz"
          (St.mk [("a", ⟨"a", "Alice", none, some "b"⟩),
                  ("b", ⟨"b", "Bob", none, some "a"⟩)] true) =
        (.error .alreadyClosed,
          St.mk [("a", ⟨"a", "Alice", none, some "b"⟩),
                 ("b", ⟨"b", "Bob", none, some "a"⟩)] true) ∧
      Err.alreadyClosed ≠ Err.notFound := by
  exact ⟨rfl, rfl, by decide⟩

/-- C6, amended: After a successful shuffle every remove request fails
with `AlreadyClosed` (whether or not the identity exists); while the gate
is still open, a remove request for an identity not present in the
registry fails with `NotFound`.  Both failures leave the state unchanged. -/
theorem C6_remove_errors :
    (∀ (s : St) (pid : String), s.shuffled = true →
        remove_participant pid s = (.error .alreadyClosed, s)) ∧
      ∀ (s : St) (pid : String), s.shuffled = false →
        (s.participants.lookup pid).isNone →
        remove_participant pid s = (.error .notFound, s) := by
  constructor
  · intro s pid h
    simp [remove_participant, h]
  · intro s pid h hmem
    simp [remove_participant, h, hmem]

/-- Witness for C6: both amended halves at concrete states. -/
theorem C6_witness :
    remove_participant "a" (St.mk [("a", ⟨"a", "Alice", none, some "b"⟩)] true) =
        (.error .alreadyClosed, St.mk [("a", ⟨"a", "Alice", none, some "b"⟩)] true) ∧
      remove_participant "zzz" (St.mk [("a", ⟨"a", "Alice", none, none⟩)] false) =
        (.error .notFound, St.mk [("a", ⟨"a", "Alice", none, none⟩)] false) :=
  ⟨C6_remove_errors.1 (St.mk [("a", ⟨"a", "Alice", none, some "b"⟩)] true) "a" rfl,
   C6_remove_errors.2 (St.mk [("a", ⟨"a", "Alice", none, none⟩)] false) "zzz" rfl rfl⟩

/-! ## The assignment lookup endpoint -/

/-- C7: `GET /assignment/{id}`. An unknown identity fails with
`NotFound`; a registered identity with no `assignedTo` set fails with
`NotReady`; and every success response consists of exactly the assigned
recipient's display name and gift preference — the response type carries
no identity token and no other participant's data. -/
theorem C7_get_assignment_contract (s : St) (pid : String) :
    (s.participants.lookup pid = none → get_assignment pid s = .error .notFound) ∧
      (∀ p, s.participants.lookup pid = some p → p.assignedTo = none →
        get_assignment pid s = .error .notReady) ∧
      ∀ v, get_assignment pid s = .ok v →
        ∃ p rid receiver, s.participants.lookup pid = some p ∧
          p.assignedTo = some rid ∧ s.participants.lookup rid = some receiver ∧
          v = ⟨receiver.name, receiver.giftPreference⟩ := by
  refine ⟨fun h => by simp [get_assignment, h], fun p hp ha => ?_, fun v hv => ?_⟩
  · simp [get_assignment, hp, ha, pyFalsyOpt]
  · rw [get_assignment] at hv
    cases hl : s.participants.lookup pid with
    | none => simp [hl] at hv
    | some p =>
      simp only [hl] at hv
      cases ha : p.assignedTo with
      | none => simp [ha, pyFalsyOpt] at hv
      | some rid =>
        by_cases hre : rid.isEmpty = true
        · simp [ha, pyFalsyOpt, hre] at hv
        · simp only [ha, pyFalsyOpt, hre, if_false, Bool.false_eq_true] at hv
          cases hr : s.participants.lookup rid with
          | none => simp [hr] at hv
          | some receiver =>
            simp only [hr] at hv
            exact ⟨p, rid, receiver, rfl, ha, hr, (Except.ok.inj hv).symm⟩

/-- Witness for C7: the three branches at concrete registries. -/
theorem C7_witness :
    get_assignment "zzz" (St.mk [("a", ⟨"a", "Alice", none, none⟩)] false) =
        .error .notFound ∧
      get_assignment "a" (St.mk [("a", ⟨"a", "Alice", none, none⟩)] false) =
        .error .notReady ∧
      ∃ p rid receiver,
        (St.mk [("a", ⟨"a", "Alice", none, some "b"⟩),
                ("b", ⟨"b", "Bob", some "socks", some "a"⟩)] true).participants.lookup "a" =
            some p ∧
          p.assignedTo = some rid ∧
          (St.mk [("a", ⟨"a", "Alice", none, some "b"⟩),
                  ("b", ⟨"b", "Bob", some "socks", some "a"⟩)] true).participants.lookup rid =
            some receiver ∧
          (⟨"Bob", some "socks"⟩ : AssignmentView) = ⟨receiver.name, receiver.giftPreference⟩ :=
  ⟨(C7_get_assignment_contract (St.mk [("a", ⟨"a", "Alice", none, none⟩)] false) "zzz").1 rfl,
   (C7_get_assignment_contract (St.mk [("a", ⟨"a", "Alice", none, none⟩)] false) "a").2.1
     ⟨"a", "Alice", none, none⟩ rfl rfl,
   (C7_get_assignment_contract
       (St.mk [("a", ⟨"a", "Alice", none, some "b"⟩),
               ("b", ⟨"b", "Bob", some "socks", some "a"⟩)] true) "a").2.2
     ⟨"Bob", some "socks"⟩ rfl⟩

/-! ## Join-time input normalization -/

theorem lookup_dictInsert_self (d : List (String × Participant)) (k : String)
    (v : Participant) : (dictInsert d k v).lookup k = some v := by
  induction d with
  | nil => simp [dictInsert, List.lookup]
  | cons kv rest ih =>
    rcases kv with ⟨k', v'⟩
    by_cases h : k' = k
    · simp [dictInsert, h, List.lookup]
    · have hbeq : (k == k') = false := by
        simpa using fun he => h he.symm
      simp [dictInsert, h, List.lookup, hbeq, ih]

/-- On a successful join, the new state is the old one with the fresh
participant inserted: trimmed name, normalized preference, no assignment. -/
theorem add_participant_ok_shape (name : String) (pref : Option String)
    (newId : String) (s : St) (r : String) (s2 : St)
    (h : add_participant name pref newId s = (.ok r, s2)) :
    r = newId ∧ s2.shuffled = s.shuffled ∧
      s2.participants = dictInsert s.participants newId (newParticipant name pref newId) := by
  by_cases h1 : name.length < 1
  · simp [add_participant, h1] at h
  · by_cases h2 : s.shuffled
    · simp [add_participant, h1, h2] at h
    · rw [add_participant, if_neg h1, if_neg h2, Prod.mk.injEq] at h
      obtain ⟨hr, hst⟩ := h
      cases hst
      exact ⟨(Except.ok.inj hr).symm, rfl, rfl⟩

/-- C8, counterexample: the claim "every join request whose name is
empty after trimming fails with `InvalidInput` and leaves the registry
unchanged" is false: the single-space name `" "` passes the `min_length=1`
schema check (it is applied before trimming), and the join succeeds,
storing a participant whose name is the empty string. -/
theorem C8_counterexample :
    pyStrip " " = "" ∧
      add_participant " " none "fresh-id" (St.mk [] false) =
        (.ok "fresh-id", St.mk [("fresh-id", ⟨"fresh-id", "", none, none⟩)] false) :=
  ⟨rfl, rfl⟩

/-- C8, amended: Add trims whitespace from the submitted name.  A join
request whose name has length zero fails with `InvalidInput` (the schema's
`min_length=1`) and leaves the registry unchanged; but the length check
precedes trimming, so a whitespace-only name passes validation and any
successful join stores the trimmed name — the empty string in that case. -/
theorem C8_add_name_validation :
    (∀ (pref : Option String) (newId : String) (s : St),
        add_participant "" pref newId s = (.error .invalidInput, s)) ∧
      ∀ (name : String) (pref : Option String) (newId : String) (s : St) (r : String)
        (s2 : St), add_participant name pref newId s = (.ok r, s2) →
          (s2.participants.lookup newId).map Participant.name = some (pyStrip name) := by
  constructor
  · intro pref newId s
    simp [add_participant]
  · intro name pref newId s r s2 h
    obtain ⟨-, -, hps⟩ := add_participant_ok_shape name pref newId s r s2 h
    rw [hps, lookup_dictInsert_self]
    rfl

/-- Witness for the amended C8: the empty name is rejected, and the
whitespace-only name `" "` is stored trimmed to `""`. -/
theorem C8_witness :
    add_participant "" none "i" (St.mk [] false) =
        (.error .invalidInput, St.mk [] false) ∧
      (((St.mk [("i", ⟨"i", "", none, none⟩)] false) : St).participants.lookup "i").map
          Participant.name = some (pyStrip " ") :=
  ⟨C8_add_name_validation.1 none "i" (St.mk [] false),
   C8_add_name_validation.2 " " none "i" (St.mk [] false) "i"
     (St.mk [("i", ⟨"i", "", none, none⟩)] false) rfl⟩

/-- C9, counterexample: the claim "a whitespace-only gift preference is
stored as absent (`None`)" is false: the preference `" "` is truthy in
Python, so the code stores its trimmed value — the *present* empty string
`some ""`, not `none`. -/
theorem C9_counterexample :
    add_participant "Alice" (some " ") "i" (St.mk [] false) =
        (.ok "i", St.mk [("i", ⟨"i", "Alice", some "", none⟩)] false) ∧
      (some "" : Option String) ≠ none :=
  ⟨rfl, by simp⟩

/-- C9, amended: For a join request whose gift preference is absent or
the empty string, the stored preference is absent (`None`); for any other
submitted preference the stored value is the submission with surrounding
whitespace trimmed — which for a whitespace-only (nonempty) submission is
the present empty string, not `None`. -/
theorem C9_preference_normalization (name : String) (pref : Option String)
    (newId : String) (s : St) (r : String) (s2 : St)
    (h : add_participant name pref newId s = (.ok r, s2)) :
    ((pref = none ∨ pref = some "") →
        (s2.participants.lookup newId).map Participant.giftPreference = some none) ∧
      ∀ g, pref = some g → g ≠ "" →
        (s2.participants.lookup newId).map Participant.giftPreference =
          some (some (pyStrip g)) := by
  obtain ⟨-, -, hps⟩ := add_participant_ok_shape name pref newId s r s2 h
  constructor
  · rintro (hp | hp) <;> subst hp <;> rw [hps, lookup_dictInsert_self] <;> rfl
  · intro g hg hne
    subst hg
    rw [hps, lookup_dictInsert_self]
    have hge : g.isEmpty = false := by
      cases hi : g.isEmpty
      · rfl
      · exact absurd ((String.isEmpty_iff g).mp hi) hne
    simp [newParticipant, hge]

/-- Witness for the amended C9: an absent preference stays absent, and the
whitespace-only preference `" "` is stored as the present empty string. -/
theorem C9_witness :
    (((St.mk [("i", ⟨"i", "Al", none, none⟩)] false) : St).participants.lookup "i").map
        Participant.giftPreference = some none ∧
      (((St.mk [("j", ⟨"j", "Al", some "", none⟩)] false) : St).participants.lookup "j").map
          Participant.giftPreference = some (some (pyStrip " ")) :=
  ⟨(C9_preference_normalization "Al" none "i" (St.mk [] false) "i"
      (St.mk [("i", ⟨"i", "Al", none, none⟩)] false) rfl).1 (Or.inl rfl),
   (C9_preference_normalization "Al" (some " ") "j" (St.mk [] false) "j"
      (St.mk [("j", ⟨"j", "Al", some "", none⟩)] false) rfl).2 " " rfl (by simp)⟩

/-! ## Dict lemmas for the invariant proofs -/

theorem mem_dictInsert {d : List (String × Participant)} {k : String} {v : Participant}
    {kp : String × Participant} (h : kp ∈ dictInsert d k v) : kp = (k, v) ∨ kp ∈ d := by
  induction d with
  | nil => simpa [dictInsert] using h
  | cons kv rest ih =>
    rcases kv with ⟨k', v'⟩
    by_cases hk : k' = k
    · rw [dictInsert, if_pos hk] at h
      rcases List.mem_cons.mp h with h | h
      · exact Or.inl h
      · exact Or.inr (List.mem_cons_of_mem _ h)
    · rw [dictInsert, if_neg hk] at h
      rcases List.mem_cons.mp h with h | h
      · exact Or.inr (h ▸ List.mem_cons_self _ _)
      · rcases ih h with h | h
        · exact Or.inl h
        · exact Or.inr (List.mem_cons_of_mem _ h)

theorem mem_keysOf_dictInsert {d : List (String × Participant)} {k : String}
    {v : Participant} {x : String} (h : x ∈ keysOf (dictInsert d k v)) :
    x = k ∨ x ∈ keysOf d := by
  rcases List.mem_map.mp h with ⟨kp, hkp, hx⟩
  rcases mem_dictInsert hkp with h' | h'
  · exact Or.inl (by rw [← hx, h'])
  · exact Or.inr (hx ▸ List.mem_map.mpr ⟨kp, h', rfl⟩)

theorem keysOf_subset_dictInsert {d : List (String × Participant)} {k : String}
    {v : Participant} {x : String} (h : x ∈ keysOf d) : x ∈ keysOf (dictInsert d k v) := by
  induction d with
  | nil => simp [keysOf] at h
  | cons kv rest ih =>
    rcases kv with ⟨k', v'⟩
    rcases List.mem_cons.mp h with h' | h'
    · by_cases hk : k' = k
      · subst hk
        rw [dictInsert, if_pos rfl]
        exact h' ▸ List.mem_cons_self _ _
      · rw [dictInsert, if_neg hk]
        exact h' ▸ List.mem_cons_self _ _
    · by_cases hk : k' = k
      · rw [dictInsert, if_pos hk]
        exact List.mem_cons_of_mem _ h'
      · rw [dictInsert, if_neg hk]
        exact List.mem_cons_of_mem _ (ih h')

theorem nodup_keysOf_dictInsert {d : List (String × Participant)} {k : String}
    {v : Participant} (h : (keysOf d).Nodup) : (keysOf (dictInsert d k v)).Nodup := by
  induction d with
  | nil => simp [dictInsert, keysOf]
  | cons kv rest ih =>
    rcases kv with ⟨k', v'⟩
    have hrest : (keysOf rest).Nodup := (List.nodup_cons.mp h).2
    have hk' : k' ∉ keysOf rest := (List.nodup_cons.mp h).1
    by_cases hk : k' = k
    · rw [dictInsert, if_pos hk]
      exact List.nodup_cons.mpr ⟨hk ▸ hk', hrest⟩
    · rw [dictInsert, if_neg hk]
      refine List.nodup_cons.mpr ⟨fun hmem => ?_, ih hrest⟩
      rcases mem_keysOf_dictInsert hmem with h' | h'
      · exact hk h'
      · exact hk' h'

theorem keysOf_applyAssignment (m : List (String × String))
    (d : List (String × Participant)) : keysOf (applyAssignment m d) = keysOf d := by
  simp only [keysOf, applyAssignment, List.map_map]
  apply List.map_congr_left
  intro kp _
  simp only [Function.comp_apply]
  cases h : m.lookup kp.1 <;> simp [h]

/-! ## Shapes of the mutating operations -/

/-- Every outcome of a join either leaves the state untouched (the error
paths) or inserts the freshly built participant. -/
theorem add_participant_shape (name : String) (pref : Option String) (newId : String)
    (s : St) (res : Except Err String) (s2 : St)
    (h : add_participant name pref newId s = (res, s2)) :
    s2 = s ∨ s2 = St.mk
      (dictInsert s.participants newId (newParticipant name pref newId)) s.shuffled := by
  by_cases h1 : name.length < 1
  · rw [add_participant, if_pos h1, Prod.mk.injEq] at h
    exact Or.inl h.2.symm
  · by_cases h2 : s.shuffled
    · rw [add_participant, if_neg h1, if_pos h2, Prod.mk.injEq] at h
      exact Or.inl h.2.symm
    · rw [add_participant, if_neg h1, if_neg h2, Prod.mk.injEq] at h
      exact Or.inr h.2.symm

/-- Every outcome of a remove either leaves the state untouched (the error
paths) or — only while the gate is open — pops the entry. -/
theorem remove_participant_shape (pid : String) (s : St) (res : Except Err Unit)
    (s2 : St) (h : remove_participant pid s = (res, s2)) :
    s2 = s ∨ (s.shuffled = false ∧
      s2 = St.mk (s.participants.filter fun kp => kp.1 ≠ pid) s.shuffled) := by
  by_cases h1 : s.shuffled
  · rw [remove_participant, if_pos h1, Prod.mk.injEq] at h
    exact Or.inl h.2.symm
  · by_cases h2 : (s.participants.lookup pid).isNone
    · rw [remove_participant, if_neg h1, if_pos h2, Prod.mk.injEq] at h
      exact Or.inl h.2.symm
    · rw [remove_participant, if_neg h1, if_neg h2, Prod.mk.injEq] at h
      exact Or.inr ⟨by simpa using h1, h.2.symm⟩

/-- Every completed shuffle request either leaves the state untouched (the
error paths) or writes a full assignment produced by the engine and closes
the gate. -/
theorem shuffle_shape (draw : Nat → List String) (fuel : Nat) (s : St)
    (res : Except Err (List (String × String))) (s2 : St)
    (h : shuffle draw fuel s = some (res, s2)) :
    s2 = s ∨ ∃ m, s.shuffled = false ∧
      build_valid_assignment draw (keysOf s.participants) 0 fuel = some m ∧
      s2 = St.mk (applyAssignment m s.participants) true := by
  by_cases h1 : s.shuffled
  · simp [shuffle, h1] at h
    exact Or.inl h.2.symm
  · by_cases h2 : s.participants.length < 2
    · simp [shuffle, h1, h2] at h
      exact Or.inl h.2.symm
    · cases hb : build_valid_assignment draw (keysOf s.participants) 0 fuel with
      | none => simp [shuffle, h1, h2, hb] at h
      | some m =>
        simp [shuffle, h1, h2, hb] at h
        exact Or.inr ⟨m, by simpa using h1, rfl, h.2.symm⟩

/-! ## Preservation of the state invariant -/

theorem WF_add (s : St) (hwf : WF s) (name : String) (pref : Option String)
    (newId : String) (res : Except Err String) (s2 : St)
    (h : add_participant name pref newId s = (res, s2)) : WF s2 := by
  obtain ⟨hnd, hid, hflag, hinv⟩ := hwf
  rcases add_participant_shape name pref newId s res s2 h with h' | h'
  · subst h'
    exact ⟨hnd, hid, hflag, hinv⟩
  · subst h'
    refine ⟨nodup_keysOf_dictInsert hnd, ?_, ?_, ?_⟩
    · intro kp hkp
      rcases mem_dictInsert hkp with h' | h'
      · subst h'
        rfl
      · exact hid kp h'
    · intro hsf kp hkp
      rcases mem_dictInsert hkp with h' | h'
      · subst h'
        rfl
      · exact hflag hsf kp h'
    · intro kp hkp rid hrid
      rcases mem_dictInsert hkp with h' | h'
      · subst h'
        simp [newParticipant] at hrid
      · obtain ⟨hmem, hne⟩ := hinv kp h' rid hrid
        exact ⟨keysOf_subset_dictInsert hmem, hne⟩

theorem WF_remove (s : St) (hwf : WF s) (pid : String) (res : Except Err Unit)
    (s2 : St) (h : remove_participant pid s = (res, s2)) : WF s2 := by
  obtain ⟨hnd, hid, hflag, hinv⟩ := hwf
  rcases remove_participant_shape pid s res s2 h with h' | ⟨hsf, h'⟩
  · subst h'
    exact ⟨hnd, hid, hflag, hinv⟩
  · subst h'
    have hsub : (s.participants.filter fun kp => kp.1 ≠ pid).Sublist s.participants :=
      List.filter_sublist _
    refine ⟨List.Nodup.sublist (hsub.map Prod.fst) hnd, ?_, ?_, ?_⟩
    · intro kp hkp
      exact hid kp (List.mem_of_mem_filter hkp)
    · intro _ kp hkp
      exact hflag hsf kp (List.mem_of_mem_filter hkp)
    · intro kp hkp rid hrid
      rw [hflag hsf kp (List.mem_of_mem_filter hkp)] at hrid
      cases hrid

theorem WF_shuffle (s : St) (hwf : WF s) (draw : Nat → List String)
    (hdraw : ∀ k, (draw k).Perm (keysOf s.participants)) (fuel : Nat)
    (res : Except Err (List (String × String))) (s2 : St)
    (h : shuffle draw fuel s = some (res, s2)) : WF s2 := by
  obtain ⟨hnd, hid, hflag, hinv⟩ := hwf
  rcases shuffle_shape draw fuel s res s2 h with h' | ⟨m, hsf, hb, h'⟩
  · subst h'
    exact ⟨hnd, hid, hflag, hinv⟩
  · subst h'
    obtain ⟨hfst, hsnd, hfix⟩ :=
      build_valid_assignment_spec draw (keysOf s.participants) hdraw 0 fuel m hb
    refine ⟨?_, ?_, ?_, ?_⟩
    · show (keysOf (applyAssignment m s.participants)).Nodup
      rw [keysOf_applyAssignment]
      exact hnd
    · intro kp' hkp'
      rcases List.mem_map.mp hkp' with ⟨kp, hkp, hf⟩
      cases hl : m.lookup kp.1 with
      | none =>
        rw [hl] at hf
        rw [← hf]
        exact hid kp hkp
      | some r =>
        rw [hl] at hf
        rw [← hf]
        exact hid kp hkp
    · intro hsf2
      cases hsf2
    · intro kp' hkp' rid hrid
      rcases List.mem_map.mp hkp' with ⟨kp, hkp, hf⟩
      cases hl : m.lookup kp.1 with
      | none =>
        rw [hl] at hf
        rw [← hf] at hrid
        rw [hflag hsf kp hkp] at hrid
        cases hrid
      | some r =>
        rw [hl] at hf
        rw [← hf] at hrid ⊢
        have hrr : r = rid := by
          simpa using hrid
        subst hrr
        have hmm : (kp.1, r) ∈ m := mem_of_lookup_eq_some hl
        constructor
        · show r ∈ keysOf (applyAssignment m s.participants)
          rw [keysOf_applyAssignment]
          exact hsnd.subset (List.mem_map.mpr ⟨(kp.1, r), hmm, rfl⟩)
        · exact fun he => hfix (kp.1, r) hmm (he ▸ rfl)

/-- C3: Starting from any well-formed state, every operation preserves
the participant invariant: each participant's `assignedTo`, when set,
references a key of the registry and differs from the participant's own
identity.  The four conjuncts cover join, remove, completed shuffle
requests (for any `random.shuffle` oracle), and assignment lookup — the
last is read-only (`get_assignment` returns no state), so the invariant
simply continues to hold on the unchanged state. -/
theorem C3_invariant_preserved (s : St) (hwf : WF s) :
    (∀ name pref newId res s2,
        add_participant name pref newId s = (res, s2) → assignedInv s2.participants) ∧
      (∀ pid res s2,
        remove_participant pid s = (res, s2) → assignedInv s2.participants) ∧
      (∀ draw, (∀ k, (draw k).Perm (keysOf s.participants)) →
        ∀ fuel res s2,
          shuffle draw fuel s = some (res, s2) → assignedInv s2.participants) ∧
      assignedInv s.participants :=
  ⟨fun name pref newId res s2 h => (WF_add s hwf name pref newId res s2 h).2.2.2,
   fun pid res s2 h => (WF_remove s hwf pid res s2 h).2.2.2,
   fun draw hdraw fuel res s2 h => (WF_shuffle s hwf draw hdraw fuel res s2 h).2.2.2,
   hwf.2.2.2⟩

/-- Witness for C3: the empty open registry is well-formed, and a concrete
join from it lands in a state satisfying the participant invariant. -/
theorem C3_witness :
    assignedInv ((St.mk [("i", ⟨"i", "Alice", none, none⟩)] false).participants) :=
  (C3_invariant_preserved (St.mk [] false)
      ⟨List.nodup_nil, by simp, by simp, by simp [assignedInv]⟩).1
    "Alice" none "i" (.ok "i") (St.mk [("i", ⟨"i", "Alice", none, none⟩)] false) rfl

/-! ## Persistence round trip -/

/-- Reading back the records that `save_data` wrote reproduces the
participants dict: every dumped record carries its `id` and `name`, so
none is skipped, and under key consistency it is rebuilt under its
original key. -/
theorem loadItems_save (l : List (String × Participant))
    (hid : ∀ kp ∈ l, kp.2.id = kp.1) :
    loadItems (l.map fun kp =>
      RawItem.mk (some kp.2.id) (some kp.2.name) kp.2.giftPreference kp.2.assignedTo)
      = l := by
  induction l with
  | nil => rfl
  | cons kp rest ih =>
    have h1 : kp.2.id = kp.1 := hid kp (List.mem_cons_self _ _)
    have h2 := ih fun x hx => hid x (List.mem_cons_of_mem _ hx)
    simp only [List.map_cons, loadItems, List.filterMap_cons] at h2 ⊢
    rw [h2]
    have h3 : ((kp.2.id,
        (⟨kp.2.id, kp.2.name, kp.2.giftPreference, kp.2.assignedTo⟩ : Participant))
          : String × Participant) = (kp.2.id, kp.2) := rfl
    rw [h3, h1]

theorem dictInsert_append (d : List (String × Participant)) (k : String)
    (v : Participant) (h : k ∉ keysOf d) : dictInsert d k v = d ++ [(k, v)] := by
  induction d with
  | nil => rfl
  | cons kv rest ih =>
    rcases kv with ⟨k', v'⟩
    have hk : ¬k' = k := fun he => h (he ▸ List.mem_cons_self _ _)
    rw [dictInsert, if_neg hk, ih fun he => h (List.mem_cons_of_mem _ he)]
    rfl

/-- Folding the dict-comprehension insert over a duplicate-free record
list rebuilds exactly that list. -/
theorem foldl_dictInsert (l : List (String × Participant)) :
    ∀ acc, (keysOf (acc ++ l)).Nodup →
      l.foldl (fun a kp => dictInsert a kp.1 kp.2) acc = acc ++ l := by
  induction l with
  | nil =>
    intro acc _
    simp
  | cons kp rest ih =>
    intro acc h
    have hsplit : keysOf (acc ++ kp :: rest) = keysOf acc ++ kp.1 :: keysOf rest := by
      simp [keysOf]
    have h' := hsplit ▸ h
    have hk : kp.1 ∉ keysOf acc := by
      have hd := (List.nodup_append.mp h').2.2
      intro hmem
      exact hd hmem (List.mem_cons_self _ _)
    have hnodup2 : (keysOf ((acc ++ [(kp.1, kp.2)]) ++ rest)).Nodup := by
      have he : (acc ++ [(kp.1, kp.2)]) ++ rest = acc ++ kp :: rest :=
        (List.append_cons acc kp rest).symm
      rw [he]
      exact h
    rw [List.foldl_cons, dictInsert_append acc kp.1 kp.2 hk, ih _ hnodup2]
    exact (List.append_cons acc kp rest).symm

/-- C5: For every well-formed registry state, saving the snapshot and
loading it back reconstructs the very same state: the same keyed records
in the same order — hence the same identities, names, preferences and
`assignedTo` values — and the same lifecycle flag. -/
theorem C5_save_load_roundtrip (s : St) (hwf : WF s) : load_data (save_data s) = s := by
  obtain ⟨ps, sh⟩ := s
  obtain ⟨hnd, hid, hflag, -⟩ := hwf
  have h2 : (loadItems (save_data (St.mk ps sh)).participants).foldl
      (fun a kp => dictInsert a kp.1 kp.2) [] = ps := by
    rw [show loadItems (save_data (St.mk ps sh)).participants = ps from
      loadItems_save ps hid]
    exact foldl_dictInsert ps [] (by simpa using hnd)
  simp only [load_data, h2]
  cases sh with
  | true => rfl
  | false =>
    have h4 : (ps.any fun kp => kp.2.assignedTo.isSome) = false := by
      rw [List.any_eq_false]
      intro kp hkp
      rw [hflag rfl kp hkp]
      simp
    simp [h4, save_data]

/-- Witness for C5: a concrete shuffled two-participant registry survives
the save/load round trip unchanged. -/
theorem C5_witness :
    load_data (save_data (St.mk
        [("a", ⟨"a", "Alice", none, some "b"⟩),
         ("b", ⟨"b", "Bob", some "socks", some "a"⟩)] true)) =
      St.mk [("a", ⟨"a", "Alice", none, some "b"⟩),
             ("b", ⟨"b", "Bob", some "socks", some "a"⟩)] true :=
  C5_save_load_roundtrip _
    (by
      refine ⟨by decide, by decide, fun h => ?_, ?_⟩
      · exact absurd h (by decide)
      · intro kp hkp rid hrid
        rcases List.mem_cons.mp hkp with he | he
        · subst he
          obtain rfl : rid = "b" := by simpa using hrid.symm
          exact ⟨by simp [keysOf], by decide⟩
        · rcases List.mem_cons.mp he with he' | he'
          · subst he'
            obtain rfl : rid = "a" := by simpa using hrid.symm
            exact ⟨by simp [keysOf], by decide⟩
          · simp at he')

/-! ## Snapshot loading -/

/-- C10: On load, the in-memory lifecycle flag is the stored flag
(missing defaults to false) OR'd with whether any loaded participant has
an `assignedTo` set; consequently any snapshot containing at least one
assignment loads as CLOSED, whatever the stored flag says. -/
theorem C10_load_flag_reconciliation (snap : Snapshot) :
    (load_data snap).shuffled =
      (snap.shuffled.getD false
        || (load_data snap).participants.any fun kp => kp.2.assignedTo.isSome) ∧
      ∀ kp ∈ (load_data snap).participants, kp.2.assignedTo.isSome →
        (load_data snap).shuffled = true := by
  refine ⟨rfl, fun kp hkp hsome => ?_⟩
  show (snap.shuffled.getD false
    || (load_data snap).participants.any fun kp => kp.2.assignedTo.isSome) = true
  rw [Bool.or_eq_true]
  exact Or.inr (List.any_eq_true.mpr ⟨kp, hkp, hsome⟩)

/-- Witness for C10: a snapshot whose stored flag is `false` but which
carries one assignment loads with the lifecycle flag CLOSED. -/
theorem C10_witness :
    (load_data ⟨[⟨some "a", some "Alice", none, some "b"⟩], some false⟩).shuffled = true :=
  (C10_load_flag_reconciliation ⟨[⟨some "a", some "Alice", none, some "b"⟩], some false⟩).2
    ("a", ⟨"a", "Alice", none, some "b"⟩) (by decide) rfl

end SecretSanta
